import Mathlib

/-!
# Verification of the xetra_stock incremental ETL core

A shallow embedding of the core logic of the xetra_stock repository:
the ledger reconciler (`MetaProcess.return_date_list`,
`MetaProcess.update_meta_file`), the S3 wrapper behaviours the core
depends on (`read_csv_to_df_ok`, `write_df_to_s3`), the aggregation
transform (`XetraETL.transform_report1`) and the load/orchestration step
(`XetraETL.load_to_s3`), together with theorems settling the specified
properties.

Modelling conventions:

* Calendar dates are integer day ordinals (plain `Int`).  The source
  moves between `datetime.date` values and `YYYY-MM-DD` strings via
  `strptime`/`strftime`, an order-preserving bijection between valid
  strings and dates, so every comparison the source performs on
  formatted date strings (lexicographic) coincides with the comparison
  on ordinals used here.  `timedelta(days = k)` is addition of `k`.
* Prices and volumes are rationals (`ℚ`); the source uses IEEE floats.
* Exceptions are explicit: functions return the Python return value as
  an `Except`, and stateful operations additionally return the stored
  object after the call, so that "no write happened" is statable.
-/

namespace Xetra

/-- Day ordinal of a Gregorian civil date (days since 1970-01-01,
Hinnant's civil-from-days algorithm); used to ground concrete calendar
literals such as the `datetime(9999, 12, 1)` sentinel. -/
def daysFromCivil (y m d : Int) : Int :=
  let y2 := if m ≤ 2 then y - 1 else y
  let era := (if 0 ≤ y2 then y2 else y2 - 399) / 400
  let yoe := y2 - era * 400
  let mp := (m + 9) % 12
  let doy := (153 * mp + 2) / 5 + d - 1
  let doe := yoe * 365 + yoe / 4 - yoe / 100 + doy
  era * 146097 + doe - 719468

/-- `MetaProcessFormat.META_SOURCE_DATE_COLUMN.value` (constants.py). -/
def META_SOURCE_DATE_COLUMN : String := "source_date"

/-- `MetaProcessFormat.META_PROCESS_COL.value` (constants.py). -/
def META_PROCESS_COL : String := "datetime_of_processing"

/-- `MetaProcessFormat.META_FILE_FORMAT.value` (constants.py). -/
def META_FILE_FORMAT : String := "csv"

/-- The parsed ledger ("meta file") dataframe: its column header, one
entry of `sourceDates` per data row (for a well-formed ledger this is
the parsed `source_date` column), and the `datetime_of_processing`
column as text. -/
structure MetaDF where
  columns : List String
  sourceDates : List Int
  procTimes : List String
deriving DecidableEq, Repr

/-- Outcome of `S3BucketConnector.read_csv_to_df_ok` on the ledger key:
a returned value (`ok none` models pandas code returning `None` for an
empty table), or one of the exception classes the source distinguishes
in its `except` clauses. -/
inductive ReadOutcome where
  | ok : Option MetaDF → ReadOutcome
  | noSuchKey : ReadOutcome
  | clientErr : ReadOutcome
  | otherErr : ReadOutcome
deriving DecidableEq

/-- The Python exceptions that can escape the embedded functions. -/
inductive PyError where
  | wrongMetaFile
  | wrongFormat
  | unboundLocal
  | typeErr
  | keyErr
  | attributeErr
  | otherErr
deriving DecidableEq, Repr

/-- `[start_date + timedelta(days=x) for x in range(0, (today - start_date).days + 1)]`:
all dates from `a` to `b` inclusive, ascending (empty when `b < a`). -/
def dateRange (a b : Int) : List Int :=
  (List.range (b - a + 1).toNat).map (fun x : Nat => a + (x : Int))

/-- `datetime(9999, 12, 1).date()`, the far-future sentinel cutoff. -/
def sentinelDate : Int := daysFromCivil 9999 12 1

/-- Python's `min` over a nonempty collection `x :: xs`. -/
def pyMin (x : Int) (xs : List Int) : Int := xs.foldl min x

/-- `MetaProcess.return_date_list` (meta_process.py lines 77-159).
`read` is the outcome of `read_csv_to_df_ok` on the meta file key;
`first_date` and `today` are the parsed first extraction date and
`datetime.today().date()`.  Returns `(return_min_date, return_dates)`.

Faithful exception behaviour: a `None` dataframe is subscripted
(`TypeError`); a ledger without the `source_date` column raises
`KeyError`; a `ClientError` whose code is not `"NoSuchKey"` is caught
and swallowed, after which the `return` statement reads the unassigned
locals (`UnboundLocalError`); any non-`ClientError` exception
propagates unchanged. -/
def return_date_list (read : ReadOutcome) (first_date today : Int) :
    Except PyError (Int × List Int) :=
  let start_date := first_date - 1
  match read with
  | .ok none => .error .typeErr
  | .ok (some df) =>
      let date_list := dateRange start_date today
      if META_SOURCE_DATE_COLUMN ∈ df.columns then
        let processed_dates := df.sourceDates
        match (date_list.drop 1).filter (fun d => decide (d ∉ processed_dates)) with
        | [] => .ok (sentinelDate, [])
        | m :: ms =>
            let min_date := pyMin m ms - 1
            let return_dates := date_list.filter (fun d => decide (min_date ≤ d))
            .ok (min_date + 1, return_dates)
      else .error .keyErr
  | .noSuchKey => .ok (first_date, dateRange start_date today)
  | .clientErr => .error .unboundLocal
  | .otherErr => .error .otherErr

/-- `S3BucketConnector.write_df_to_s3` (s3.py lines 88-114), abstracted
over the dataframe type and its emptiness test.  `stored` is the object
at the target key before the call; the first component of the result is
the object after the call (`stored` unchanged when nothing is written),
the second the Python return value (`.ok false` models `return None` in
the empty case). -/
def write_df_to_s3 {α : Type} (isEmptyDf : α → Bool) (stored : Option α)
    (data_frame : α) (file_format : String) :
    Option α × Except PyError Bool :=
  if isEmptyDf data_frame then (stored, .ok false)
  else if file_format = "csv" then (some data_frame, .ok true)
  else if file_format = "parquet" then (some data_frame, .ok true)
  else (stored, .error .wrongFormat)

/-- `DataFrame.empty` for the ledger dataframe: no data rows. -/
def metaEmpty (df : MetaDF) : Bool := df.sourceDates.isEmpty

/-- `MetaProcess.update_meta_file` (meta_process.py lines 16-75).
`read` is the outcome of `read_csv_to_df_ok` on the meta file key,
`ledger` the stored object at that key before the call, `procTime` the
formatted `datetime.today()` stamp shared by the whole batch.  Returns
the stored ledger after the call and the Python return value.

Faithful exception behaviour mirrors `return_date_list`: attribute
access on a `None` dataframe raises; a caught `ClientError` with a code
other than `"NoSuchKey"` leaves `df_all` unassigned, so the write line
raises `UnboundLocalError`; non-`ClientError` exceptions propagate. -/
def update_meta_file (read : ReadOutcome) (ledger : Option MetaDF)
    (extract_date_list : List Int) (procTime : String) :
    Option MetaDF × Except PyError Bool :=
  match extract_date_list with
  | [] => (ledger, .ok false)
  | _ =>
    let df_new : MetaDF :=
      { columns := [META_SOURCE_DATE_COLUMN, META_PROCESS_COL],
        sourceDates := extract_date_list,
        procTimes := extract_date_list.map (fun _ => procTime) }
    match read with
    | .ok none => (ledger, .error .attributeErr)
    | .ok (some df_old) =>
        if df_old.columns = df_new.columns then
          let df_all : MetaDF :=
            { columns := df_old.columns,
              sourceDates := df_old.sourceDates ++ df_new.sourceDates,
              procTimes := df_old.procTimes ++ df_new.procTimes }
          write_df_to_s3 metaEmpty ledger df_all META_FILE_FORMAT
        else (ledger, .error .wrongMetaFile)
    | .noSuchKey => write_df_to_s3 metaEmpty ledger df_new META_FILE_FORMAT
    | .clientErr => (ledger, .error .unboundLocal)
    | .otherErr => (ledger, .error .otherErr)

/-- `read_csv_to_df_ok` applied to the ledger key when no fault is
injected: an absent key raises the `NoSuchKey` `ClientError`; a present
ledger parses to its dataframe, which the reader turns into `None` when
the table has no data rows (ledger cells are text, never all-missing). -/
def readLedgerOutcome (ledger : Option MetaDF) : ReadOutcome :=
  match ledger with
  | none => .noSuchKey
  | some df => if metaEmpty df then .ok none else .ok (some df)

/-- `return_date_list` as executed against a stored ledger. -/
def return_date_list_run (ledger : Option MetaDF) (first_date today : Int) :
    Except PyError (Int × List Int) :=
  return_date_list (readLedgerOutcome ledger) first_date today

/-- `update_meta_file` as executed against a stored ledger. -/
def update_meta_file_run (ledger : Option MetaDF)
    (extract_date_list : List Int) (procTime : String) :
    Option MetaDF × Except PyError Bool :=
  update_meta_file (readLedgerOutcome ledger) ledger extract_date_list procTime

/-! ## Basic lemmas about `dateRange` and `pyMin` -/

theorem mem_dateRange {a b d : Int} :
    d ∈ dateRange a b ↔ a ≤ d ∧ d ≤ b := by
  constructor
  · intro h
    obtain ⟨x, hx, he⟩ := List.mem_map.mp h
    have hx' : x < (b - a + 1).toNat := List.mem_range.mp hx
    subst he
    omega
  · intro h
    exact List.mem_map.mpr ⟨(d - a).toNat, List.mem_range.mpr (by omega), by omega⟩

theorem dateRange_sorted (a b : Int) :
    (dateRange a b).Sorted (· < ·) :=
  (List.pairwise_lt_range _).map _ (fun h => by omega)

theorem dateRange_drop_one (a b : Int) :
    (dateRange a b).drop 1 = dateRange (a + 1) b := by
  unfold dateRange
  rcases h : (b - a + 1).toNat with _ | k
  · have h2 : (b - (a + 1) + 1).toNat = 0 := by omega
    rw [h2]
    rfl
  · have hk : (b - (a + 1) + 1).toNat = k := by omega
    rw [hk, List.range_succ_eq_map]
    simp only [List.map_cons, List.drop_succ_cons, List.drop_zero, List.map_map]
    refine List.map_congr_left ?_
    intro x _
    simp only [Function.comp_apply]
    push_cast
    ring

theorem pyMin_eq_of_forall_le {x : Int} {xs : List Int}
    (h : ∀ y ∈ xs, x ≤ y) : pyMin x xs = x := by
  unfold pyMin
  induction xs with
  | nil => rfl
  | cons y ys ih =>
      have hxy : min x y = x := min_eq_left (h y (by simp))
      simp only [List.foldl_cons, hxy]
      exact ih (fun z hz => h z (by simp [hz]))

theorem pyMin_sorted_cons {m : Int} {ms : List Int}
    (h : (m :: ms).Sorted (· < ·)) : pyMin m ms = m :=
  pyMin_eq_of_forall_le (fun y hy => le_of_lt (List.rel_of_sorted_cons h y hy))

theorem readLedgerOutcome_some {df : MetaDF} (h : df.sourceDates ≠ []) :
    readLedgerOutcome (some df) = .ok (some df) := by
  have he : metaEmpty df = false := List.isEmpty_eq_false.mpr h
  unfold readLedgerOutcome
  simp only [he, Bool.false_eq_true, if_false]

/-! ## Claims about `return_date_list` -/

/-- C6: for every first date, when the ledger is absent (the ledger read
fails with the key-not-found error), `return_date_list` returns
cutoff = first date together with the list of all dates from first date
minus one day through today, which is strictly ascending and contains
exactly the dates of that closed interval. -/
theorem return_date_list_absent_bootstrap (first_date today : Int) :
    return_date_list_run none first_date today =
        .ok (first_date, dateRange (first_date - 1) today) ∧
    (dateRange (first_date - 1) today).Sorted (· < ·) ∧
    ∀ d : Int, d ∈ dateRange (first_date - 1) today ↔
      first_date - 1 ≤ d ∧ d ≤ today :=
  ⟨rfl, dateRange_sorted _ _, fun _ => mem_dateRange⟩

/-- Core of the all-processed case: a stored ledger covering the whole
candidate range yields the sentinel cutoff and an empty list. -/
theorem return_date_list_sentinel_aux (df : MetaDF) (first_date today : Int)
    (hne : df.sourceDates ≠ [])
    (hcol : META_SOURCE_DATE_COLUMN ∈ df.columns)
    (hproc : ∀ d ∈ dateRange first_date today, d ∈ df.sourceDates) :
    return_date_list_run (some df) first_date today = .ok (sentinelDate, []) := by
  have hfil : (dateRange first_date today).filter
      (fun d => decide (d ∉ df.sourceDates)) = [] := by
    rw [List.filter_eq_nil_iff]
    intro d hd
    simp only [decide_eq_true_eq, not_not]
    exact hproc d hd
  unfold return_date_list_run
  rw [readLedgerOutcome_some hne]
  simp only [return_date_list]
  rw [if_pos hcol, dateRange_drop_one, sub_add_cancel, hfil]

/-- C7: for every first date and every existing (nonempty, well-headed)
ledger whose processed dates contain every date of the candidate range
from first date through today, `return_date_list` returns an empty date
list and the far-future sentinel cutoff `9999-12-01`. -/
theorem return_date_list_all_processed (df : MetaDF) (first_date today : Int)
    (hne : df.sourceDates ≠ [])
    (hcol : META_SOURCE_DATE_COLUMN ∈ df.columns)
    (hproc : ∀ d ∈ dateRange first_date today, d ∈ df.sourceDates) :
    return_date_list_run (some df) first_date today = .ok (sentinelDate, []) :=
  return_date_list_sentinel_aux df first_date today hne hcol hproc

/-- C1: for every first date and every existing (nonempty, well-headed)
ledger whose processed dates leave some date of the candidate range
from first date through today unprocessed, `return_date_list` returns
cutoff = the minimum missing date `m`, and a date list that is strictly
ascending and contains exactly the dates of the full candidate range
(first date minus one day through today) that are `≥ m - 1`. -/
theorem return_date_list_missing_window (df : MetaDF) (first_date today m : Int)
    (hne : df.sourceDates ≠ [])
    (hcol : META_SOURCE_DATE_COLUMN ∈ df.columns)
    (hm : m ∈ dateRange first_date today) (hm2 : m ∉ df.sourceDates)
    (hmin : ∀ d ∈ dateRange first_date today, d ∉ df.sourceDates → m ≤ d) :
    return_date_list_run (some df) first_date today =
      .ok (m, (dateRange (first_date - 1) today).filter
        (fun d => decide (m - 1 ≤ d))) ∧
    ((dateRange (first_date - 1) today).filter
        (fun d => decide (m - 1 ≤ d))).Sorted (· < ·) ∧
    ∀ d : Int, d ∈ (dateRange (first_date - 1) today).filter
        (fun d => decide (m - 1 ≤ d)) ↔
      d ∈ dateRange (first_date - 1) today ∧ m - 1 ≤ d := by
  have hmem : m ∈ (dateRange first_date today).filter
      (fun d => decide (d ∉ df.sourceDates)) :=
    List.mem_filter.mpr ⟨hm, by simp only [decide_eq_true_eq]; exact hm2⟩
  rcases hfe : (dateRange first_date today).filter
      (fun d => decide (d ∉ df.sourceDates)) with _ | ⟨m0, ms⟩
  · rw [hfe] at hmem
    exact absurd hmem (List.not_mem_nil m)
  · have hsorted : (m0 :: ms).Sorted (· < ·) := by
      rw [← hfe]
      exact (dateRange_sorted _ _).filter _
    have hm0mem : m0 ∈ (dateRange first_date today).filter
        (fun d => decide (d ∉ df.sourceDates)) := by
      rw [hfe]; exact List.mem_cons_self m0 ms
    obtain ⟨hm0range, hm0dec⟩ := List.mem_filter.mp hm0mem
    have hm0miss : m0 ∉ df.sourceDates := by
      simpa only [decide_eq_true_eq] using hm0dec
    have hmm0 : m = m0 := by
      rw [hfe] at hmem
      rcases List.mem_cons.mp hmem with h | h
      · exact h
      · have h1 : m0 < m := List.rel_of_sorted_cons hsorted m h
        have h2 : m ≤ m0 := hmin m0 hm0range hm0miss
        omega
    have hpy : pyMin m0 ms = m0 := pyMin_sorted_cons hsorted
    subst hmm0
    refine ⟨?_, (dateRange_sorted _ _).filter _, ?_⟩
    · unfold return_date_list_run
      rw [readLedgerOutcome_some hne]
      simp only [return_date_list]
      rw [if_pos hcol, dateRange_drop_one, sub_add_cancel, hfe]
      simp only [hpy, sub_add_cancel]
    · intro d
      rw [List.mem_filter]
      simp only [decide_eq_true_eq]

/-! ## Claims about `update_meta_file` -/

/-- C4: for every non-empty list of new dates and every existing
(nonempty) ledger whose column header differs from the expected
two-column schema `[source_date, datetime_of_processing]`,
`update_meta_file` fails with `WrongMetaFileException` and performs no
write: the stored ledger after the call is unchanged. -/
theorem update_meta_file_wrong_columns (df : MetaDF) (d0 : Int)
    (ds : List Int) (t : String)
    (hne : df.sourceDates ≠ [])
    (hcols : df.columns ≠ [META_SOURCE_DATE_COLUMN, META_PROCESS_COL]) :
    update_meta_file_run (some df) (d0 :: ds) t =
      (some df, .error .wrongMetaFile) := by
  unfold update_meta_file_run
  rw [readLedgerOutcome_some hne]
  simp only [update_meta_file]
  rw [if_neg hcols]

theorem return_date_list_all_processed_witness :
    return_date_list_run
        (some ⟨[META_SOURCE_DATE_COLUMN, META_PROCESS_COL], [5], ["t"]⟩) 5 5 =
      .ok (sentinelDate, []) :=
  return_date_list_all_processed _ 5 5 (by decide) (by decide) (by decide)

theorem return_date_list_missing_window_witness :
    return_date_list_run
        (some ⟨[META_SOURCE_DATE_COLUMN, META_PROCESS_COL], [5], ["t"]⟩) 5 6 =
      .ok (6, (dateRange 4 6).filter (fun d => decide (5 ≤ d))) ∧
    ((dateRange 4 6).filter (fun d => decide (5 ≤ d))).Sorted (· < ·) ∧
    ∀ d : Int, d ∈ (dateRange 4 6).filter (fun d => decide (5 ≤ d)) ↔
      d ∈ dateRange 4 6 ∧ 5 ≤ d :=
  return_date_list_missing_window
    ⟨[META_SOURCE_DATE_COLUMN, META_PROCESS_COL], [5], ["t"]⟩ 5 6 6
    (by decide) (by decide) (by decide) (by decide) (by decide)

theorem update_meta_file_wrong_columns_witness :
    update_meta_file_run (some ⟨["foo", "bar"], [1], ["t"]⟩) [2] "x" =
      (some ⟨["foo", "bar"], [1], ["t"]⟩, .error .wrongMetaFile) :=
  update_meta_file_wrong_columns ⟨["foo", "bar"], [1], ["t"]⟩ 2 [] "x"
    (by decide) (by decide)

/-- C9 (code bug evaluation): while the ledger read is wrapped in
`try/except ClientError`, a `ClientError` whose code is not `"NoSuchKey"`
is caught and silently swallowed by both `return_date_list` and
`update_meta_file`; execution then reaches `return return_min_date, ...`
resp. `write_df_to_s3(df_all, ...)` with those locals never assigned, so
the run aborts with `UnboundLocalError` instead of propagating the
original failure.  Only non-`ClientError` exceptions propagate
unchanged, as the last two conjuncts record. -/
theorem client_error_swallowed_not_propagated :
    return_date_list .clientErr 1 2 = .error .unboundLocal ∧
    update_meta_file .clientErr
        (some ⟨[META_SOURCE_DATE_COLUMN, META_PROCESS_COL], [1], ["t"]⟩) [2] "t" =
      (some ⟨[META_SOURCE_DATE_COLUMN, META_PROCESS_COL], [1], ["t"]⟩,
        .error .unboundLocal) ∧
    return_date_list .otherErr 1 2 = .error .otherErr ∧
    update_meta_file .otherErr none [2] "t" = (none, .error .otherErr) :=
  ⟨rfl, rfl, rfl, rfl⟩

/-! ## `read_csv_to_df_ok` on arbitrary CSV objects (C10) -/

/-- A parsed CSV table (`pd.read_csv` result): the data rows, each a
list of cells, a cell being `none` when the value is missing (NaN). -/
structure PdTable where
  rows : List (List (Option String))
deriving DecidableEq, Repr

/-- `DataFrame.empty`: an axis has length zero (no rows, or no columns
so that every row is empty). -/
def PdTable.emptyDf (t : PdTable) : Bool :=
  t.rows.isEmpty || t.rows.all (·.isEmpty)

/-- `DataFrame.isna().all().all()`: every cell is missing. -/
def PdTable.allNa (t : PdTable) : Bool :=
  t.rows.all (fun r => r.all (·.isNone))

/-- `S3BucketConnector.read_csv_to_df_ok` (s3.py lines 48-70) after a
successful fetch and parse of the stored CSV: the dataframe is returned
only when it is nonempty and not all-missing; otherwise control falls
off the end of the function body, returning `None`. -/
def read_csv_to_df_ok (t : PdTable) : Option PdTable :=
  if !t.emptyDf && !t.allNa then some t else none

/-- C10: for every stored CSV whose content parses to a table that is
empty or whose values are all missing, `read_csv_to_df_ok` returns
`None` rather than the parsed table; a table value is returned only
when the table is non-empty and has at least one non-missing value,
and the value returned is the parsed table itself. -/
theorem read_csv_to_df_ok_empty_guard (t : PdTable) :
    (t.emptyDf = true ∨ t.allNa = true → read_csv_to_df_ok t = none) ∧
    (read_csv_to_df_ok t ≠ none →
      read_csv_to_df_ok t = some t ∧ t.emptyDf = false ∧
        ∃ r ∈ t.rows, ∃ c ∈ r, c.isSome = true) := by
  constructor
  · intro h
    unfold read_csv_to_df_ok
    rcases h with h | h <;> rw [h] <;> simp
  · intro h
    have he : t.emptyDf = false := by
      cases hb : t.emptyDf with
      | false => rfl
      | true =>
          exact absurd (by unfold read_csv_to_df_ok; rw [hb]; simp) h
    have ha : t.allNa = false := by
      cases hb : t.allNa with
      | false => rfl
      | true =>
          exact absurd (by unfold read_csv_to_df_ok; rw [hb]; simp) h
    refine ⟨by unfold read_csv_to_df_ok; rw [he, ha]; rfl, he, ?_⟩
    have h1 : t.rows.all (fun r => r.all (·.isNone)) = false := ha
    obtain ⟨r, hr, hra⟩ := List.all_eq_false.mp h1
    have h2 : (r.all fun c => c.isNone) = false := by
      cases hb : (r.all fun c => c.isNone) with
      | false => rfl
      | true => exact absurd hb hra
    obtain ⟨c, hc, hcn⟩ := List.all_eq_false.mp h2
    have hcs : c.isSome = true := by
      cases c with
      | none => exact absurd rfl hcn
      | some v => rfl
    exact ⟨r, hr, c, hc, hcs⟩

theorem read_csv_to_df_ok_empty_guard_witness :
    read_csv_to_df_ok ⟨[[none, none]]⟩ = none ∧
    (read_csv_to_df_ok ⟨[[some "a", none]]⟩ = some ⟨[[some "a", none]]⟩ ∧
      PdTable.emptyDf ⟨[[some "a", none]]⟩ = false ∧
      ∃ r ∈ PdTable.rows ⟨[[some "a", none]]⟩, ∃ c ∈ r, c.isSome = true) :=
  ⟨(read_csv_to_df_ok_empty_guard ⟨[[none, none]]⟩).1 (Or.inr (by decide)),
   (read_csv_to_df_ok_empty_guard ⟨[[some "a", none]]⟩).2 (by decide)⟩

/-! ## The aggregation transform (`XetraETL.transform_report1`)

The source operates on a pandas frame whose columns are fixed by the
configuration (tests and run config): source columns `ISIN`, `Mnemonic`,
`Date`, `Time`, `StartPrice`, `EndPrice`, `MinPrice`, `MaxPrice`,
`TradedVolume`; the date column is named `Date` both before and after
renaming.  `Time` values are `HH:MM` strings, compared lexicographically
by `sort_values`, which is their chronological order; like dates they
are modelled as integer ordinals (minute of day), an order-isomorphic
replacement.  Prices/volumes are `ℚ` for IEEE floats.  The one place
the idealisation shows: `x / 0 = 0` in `ℚ` where pandas float division
yields `inf`/`NaN`; no claim below touches that case. -/

/-- A raw source row restricted to the configured `src_columns`
projection; a cell is `none` when the value is missing. -/
structure SrcRow where
  isin : Option String
  mnemonic : Option String
  date : Option Int
  time : Option Int
  startPrice : Option ℚ
  endPrice : Option ℚ
  minPrice : Option ℚ
  maxPrice : Option ℚ
  tradedVol : Option ℚ
deriving DecidableEq, Repr

/-- A fully-present row, the shape surviving `dropna`. -/
structure CleanRow where
  isin : String
  mnemonic : String
  date : Int
  time : Int
  startPrice : ℚ
  endPrice : ℚ
  minPrice : ℚ
  maxPrice : ℚ
  tradedVol : ℚ
deriving DecidableEq, Repr

/-- `dataframe.loc[:, src_columns]` followed by `dropna(inplace=True)`
(xetra_transformers.py lines 150-153): keep exactly the rows with no
missing value in any projected column. -/
def dropnaRows : List SrcRow → List CleanRow :=
  List.filterMap (fun r =>
    match r.isin, r.mnemonic, r.date, r.time, r.startPrice, r.endPrice,
        r.minPrice, r.maxPrice, r.tradedVol with
    | some i, some mn, some dt, some tm, some sp, some ep, some mnp,
        some mxp, some tv => some ⟨i, mn, dt, tm, sp, ep, mnp, mxp, tv⟩
    | _, _, _, _, _, _, _, _, _ => none)

/-- The time order on rows, the key of `sort_values(by=[Time])`. -/
def timeRel (r1 r2 : CleanRow) : Prop := r1.time ≤ r2.time

instance timeRelDecidable : DecidableRel timeRel :=
  fun r1 r2 => Int.decLe r1.time r2.time

instance timeRelTotal : IsTotal CleanRow timeRel :=
  ⟨fun r1 r2 => Int.le_total r1.time r2.time⟩

instance timeRelTrans : IsTrans CleanRow timeRel :=
  ⟨fun _ _ _ h1 h2 => Int.le_trans h1 h2⟩

/-- `dataframe.sort_values(by=[Time])`.  (pandas' default quicksort is
not stable; ties between equal times are resolved arbitrarily there,
and every claim proved below assumes distinct times within a group, so
the choice of sort here is immaterial.) -/
def sortByTime (rows : List CleanRow) : List CleanRow :=
  rows.insertionSort timeRel

/-- Membership test for the `(ISIN, Date)` group of a row. -/
def sameGroup (i : String) (d : Int) (r : CleanRow) : Bool :=
  decide (r.isin = i) && decide (r.date = d)

/-- `groupby([ISIN, Date])[StartPrice].transform("first")` on the
time-sorted frame: the group's first start price in time order,
broadcast to every row of the group (lines 155-162). -/
def firstStartPrice (rows : List CleanRow) (i : String) (d : Int) : ℚ :=
  match (sortByTime rows).filter (sameGroup i d) with
  | [] => 0
  | r :: _ => r.startPrice

/-- `groupby([ISIN, Date])[StartPrice].transform("last")` on the
time-sorted frame (lines 164-171). -/
def lastStartPrice (rows : List CleanRow) (i : String) (d : Int) : ℚ :=
  match ((sortByTime rows).filter (sameGroup i d)).getLast? with
  | none => 0
  | some r => r.startPrice

/-- An aggregated report row (target column layout of lines 184-226). -/
structure Report1Row where
  isin : String
  date : Int
  openingPrice : ℚ
  closingPrice : ℚ
  minimumPrice : ℚ
  maximumPrice : ℚ
  dailyTradedVolume : ℚ
  changePrevClosing : Option ℚ
deriving DecidableEq, Repr

/-- `min` aggregation over a group's column values (0 unreachable:
aggregation groups are nonempty). -/
def foldMin (l : List ℚ) : ℚ :=
  match l with
  | [] => 0
  | x :: xs => xs.foldl min x

/-- `max` aggregation over a group's column values. -/
def foldMax (l : List ℚ) : ℚ :=
  match l with
  | [] => 0
  | x :: xs => xs.foldl max x

/-- `sum` aggregation over a group's column values. -/
def foldSum (l : List ℚ) : ℚ := l.foldl (· + ·) 0

/-- Python tuple order on `(ISIN, Date)` group keys, as pandas sorts
group keys (`groupby(..., sort=True)`): code-point lexicographic order
on the instrument id, then date order. -/
def keyRel (k1 k2 : String × Int) : Prop :=
  List.Lex (· < ·) k1.1.data k2.1.data ∨ (k1.1 = k2.1 ∧ k1.2 ≤ k2.2)

instance keyRelDecidable : DecidableRel keyRel :=
  fun k1 k2 => inferInstanceAs
    (Decidable (List.Lex (· < ·) k1.1.data k2.1.data ∨ (k1.1 = k2.1 ∧ k1.2 ≤ k2.2)))

/-- The distinct `(ISIN, Date)` keys of the cleaned frame, in the
sorted order pandas emits aggregated groups. -/
def groupKeys (rows : List CleanRow) : List (String × Int) :=
  ((rows.map (fun r => (r.isin, r.date))).dedup).insertionSort keyRel

/-- One output row of
`groupby([ISIN, Date], as_index=False).agg({...})` (lines 184-195):
the `opening_price`/`closing_price` columns hold the broadcast
per-group constants, aggregated with `min`; `MinPrice`/`MaxPrice`/
`TradedVolume` aggregate with `min`/`max`/`sum`. -/
def aggRow (cleaned : List CleanRow) (k : String × Int) : Report1Row :=
  let g := cleaned.filter (sameGroup k.1 k.2)
  { isin := k.1, date := k.2,
    openingPrice := foldMin (g.map (fun _ => firstStartPrice cleaned k.1 k.2)),
    closingPrice := foldMin (g.map (fun _ => lastStartPrice cleaned k.1 k.2)),
    minimumPrice := foldMin (g.map (·.minPrice)),
    maximumPrice := foldMax (g.map (·.maxPrice)),
    dailyTradedVolume := foldSum (g.map (·.tradedVol)),
    changePrevClosing := none }

/-- The distinct dates present for one instrument. -/
def isinDates (cleaned : List CleanRow) (i : String) : List Int :=
  ((cleaned.filter (fun r => decide (r.isin = i))).map (·.date)).dedup

/-- The previous date for the `shift(1)` step: the greatest date of the
same instrument strictly before `d` (aggregated rows are unique per
`(ISIN, Date)` and date-sorted within the instrument, so `shift(1)`
picks exactly this row), `none` for the instrument's first date. -/
def prevDate (cleaned : List CleanRow) (i : String) (d : Int) : Option Int :=
  ((isinDates cleaned i).filter (fun d2 => decide (d2 < d))).max?

/-- The `prev_closing_price` shift (lines 199-203) and the percentage
change `(close - prev) / prev * 100` (lines 207-214), leaving the
change `None` (pandas `NaN`) when there is no previous date; the helper
column is dropped again (line 216). -/
def withChange (cleaned : List CleanRow) (row : Report1Row) : Report1Row :=
  match prevDate cleaned row.isin row.date with
  | none => row
  | some d2 =>
      let prev := (aggRow cleaned (row.isin, d2)).closingPrice
      let ch := (row.closingPrice - prev) / prev * 100
      { row with changePrevClosing := some ch }

/-- Floor of a rational as an integer (`num` floor-divided by `den`). -/
def ratFloor (q : ℚ) : Int := Int.fdiv q.num q.den

/-- Round half-to-even to an integer, as numpy rounds. -/
def roundHalfEven (q : ℚ) : Int :=
  let f := ratFloor q
  if q - f < 1/2 then f
  else if 1/2 < q - f then f + 1
  else if f % 2 = 0 then f else f + 1

/-- `DataFrame.round(decimals=2)` on one value. -/
def round2 (q : ℚ) : ℚ := (roundHalfEven (q * 100) : ℚ) / 100

/-- `dataframe.round(decimals=2)` (line 218) applied to one report row:
every numeric column is rounded to 2 decimals. -/
def roundRow (r : Report1Row) : Report1Row :=
  { r with
    openingPrice := round2 r.openingPrice,
    closingPrice := round2 r.closingPrice,
    minimumPrice := round2 r.minimumPrice,
    maximumPrice := round2 r.maximumPrice,
    dailyTradedVolume := round2 r.dailyTradedVolume,
    changePrevClosing := r.changePrevClosing.map round2 }

/-- `XetraETL.transform_report1` (lines 136-226), with the reconciled
cutoff `self.extract_date` passed explicitly.  An empty input frame is
returned unchanged (empty output); otherwise: project/dropna, compute
the per-group opening/closing broadcasts, aggregate per `(ISIN, Date)`,
attach the day-over-day change, round, and keep only rows with
`Date >= extract_date` (line 221). -/
def transform_report1 (extract_date : Int) (dataframe : List SrcRow) :
    List Report1Row :=
  if dataframe.isEmpty then []
  else
    let cleaned := dropnaRows dataframe
    let agg := (groupKeys cleaned).map
        (fun k => withChange cleaned (aggRow cleaned k))
    (agg.map roundRow).filter (fun r => decide (extract_date ≤ r.date))

/-- C2: for every raw input table and every reconciled cutoff date, the
report table returned by `transform_report1` contains no row whose date
is strictly earlier than the cutoff: every emitted row has
`date ≥ extract_date`. -/
theorem transform_report1_no_row_before_cutoff
    (extract_date : Int) (dataframe : List SrcRow) :
    ∀ row ∈ transform_report1 extract_date dataframe,
      extract_date ≤ row.date := by
  intro row hrow
  unfold transform_report1 at hrow
  by_cases h : dataframe.isEmpty
  · rw [if_pos h] at hrow
    exact absurd hrow (List.not_mem_nil row)
  · rw [if_neg h] at hrow
    have h2 := (List.mem_filter.mp hrow).2
    simpa only [decide_eq_true_eq] using h2

/-- Two concrete source rows for instrument `"A"`, dates 5 and 6. -/
def sampleSrc : List SrcRow :=
  [⟨some "A", some "M", some 5, some 480, some 10, some 11,
    some 9, some 12, some 100⟩,
   ⟨some "A", some "M", some 6, some 480, some 11, some 11,
    some 9, some 12, some 100⟩]

theorem transform_report1_sampleSrc_eval :
    transform_report1 6 sampleSrc = [⟨"A", 6, 11, 11, 9, 12, 100, some 10⟩] := by
  norm_num [sampleSrc, transform_report1, dropnaRows, groupKeys, sortByTime,
    aggRow, withChange, prevDate, isinDates, firstStartPrice, lastStartPrice,
    foldMin, foldMax, foldSum, roundRow, round2, roundHalfEven, ratFloor,
    sameGroup, keyRel, timeRel, List.insertionSort, List.orderedInsert,
    List.dedup, List.filter, List.filterMap, List.foldl, List.map]

theorem transform_report1_no_row_before_cutoff_witness :
    (6 : Int) ≤ Report1Row.date ⟨"A", 6, 11, 11, 9, 12, 100, some 10⟩ :=
  transform_report1_no_row_before_cutoff 6 sampleSrc
    ⟨"A", 6, 11, 11, 9, 12, 100, some 10⟩
    (by rw [transform_report1_sampleSrc_eval]; exact List.mem_singleton.mpr rfl)

/-! ## The load step (`XetraETL.load_to_s3`) -/

/-- `DataFrame.empty` for the report frame. -/
def reportEmpty (df : List Report1Row) : Bool := df.isEmpty

/-- The state of the target bucket: the object at this run's
timestamped report key (`none` until written) and the object at the
meta key. -/
structure TrgState where
  report : Option (List Report1Row)
  ledger : Option MetaDF
deriving DecidableEq

/-- `XetraETL.load_to_s3` (xetra_transformers.py lines 229-250): write
the report frame to the timestamped target key via `write_df_to_s3`
(which skips the write when the frame is empty, returning `None`
without error, and raises `WrongFormatException` on an unsupported
format), then unconditionally call `MetaProcess.update_meta_file` with
`self.meta_update_list`.  Returns the target-bucket state after the
call and the Python return value. -/
def load_to_s3 (st : TrgState) (dataframe : List Report1Row)
    (trg_format : String) (meta_update_list : List Int) (procTime : String) :
    TrgState × Except PyError Bool :=
  match write_df_to_s3 reportEmpty st.report dataframe trg_format with
  | (rep1, .error e) => (⟨rep1, st.ledger⟩, .error e)
  | (rep1, .ok _) =>
      match update_meta_file (readLedgerOutcome st.ledger) st.ledger
          meta_update_list procTime with
      | (led1, .error e) => (⟨rep1, led1⟩, .error e)
      | (led1, .ok _) => (⟨rep1, led1⟩, .ok true)

/-- C3 counterexample: starting from an empty target bucket, a run
whose report table is empty but whose `meta_update_list` is the
nonempty `[5]` skips the report write (the report key still holds
nothing afterwards) yet records date 5 in the ledger and returns
success — the ledger now claims a source date whose report rows were
never written, refuting the claim that no ledger update happens when
the report write did not occur. -/
theorem load_to_s3_ledger_update_without_write :
    load_to_s3 ⟨none, none⟩ [] "csv" [5] "t" =
      (⟨none, some ⟨[META_SOURCE_DATE_COLUMN, META_PROCESS_COL], [5], ["t"]⟩⟩,
        .ok true) ∧
    (load_to_s3 ⟨none, none⟩ [] "csv" [5] "t").1.report = none ∧
    (load_to_s3 ⟨none, none⟩ [] "csv" [5] "t").1.ledger ≠ none :=
  ⟨rfl, rfl, fun h => Option.noConfusion h⟩

/-- C3 (amended): the ledger update runs strictly after the report
write step, so when that step raises (for example on an unsupported
target format) the run aborts with the ledger untouched; and when the
report frame is nonempty and the format supported, the ledger update
only happens with the report durably stored.  However, when the report
frame is empty, the write is skipped without error and the ledger is
nevertheless updated exactly as `update_meta_file` prescribes, so the
ledger can record source dates whose report rows were never written. -/
theorem load_to_s3_ledger_update_semantics (st : TrgState)
    (df : List Report1Row) (fmt : String) (mul : List Int) (t : String) :
    (∀ e : PyError,
      (write_df_to_s3 reportEmpty st.report df fmt).2 = .error e →
        load_to_s3 st df fmt mul t = (st, .error e)) ∧
    (df ≠ [] → (fmt = "csv" ∨ fmt = "parquet") →
      (load_to_s3 st df fmt mul t).1.report = some df) ∧
    (df = [] →
      (load_to_s3 st df fmt mul t).1.report = st.report ∧
      (load_to_s3 st df fmt mul t).1.ledger =
        (update_meta_file_run st.ledger mul t).1) := by
  refine ⟨?_, ?_, ?_⟩
  · intro e he
    unfold load_to_s3
    rcases hw : write_df_to_s3 reportEmpty st.report df fmt with ⟨rep1, r⟩
    rw [hw] at he
    simp only at he
    subst he
    have hrep : rep1 = st.report := by
      unfold write_df_to_s3 at hw
      by_cases h1 : reportEmpty df
      · rw [if_pos h1] at hw
        exact (Prod.mk.injEq _ _ _ _ ▸ hw).1.symm ▸ rfl
      · rw [if_neg h1] at hw
        by_cases h2 : fmt = "csv"
        · rw [if_pos h2] at hw
          exact absurd (congrArg Prod.snd hw) (by simp)
        · rw [if_neg h2] at hw
          by_cases h3 : fmt = "parquet"
          · rw [if_pos h3] at hw
            exact absurd (congrArg Prod.snd hw) (by simp)
          · rw [if_neg h3] at hw
            exact (congrArg Prod.fst hw).symm
    subst hrep
    rfl
  · intro hne hfmt
    have hemp : reportEmpty df = false := List.isEmpty_eq_false.mpr hne
    unfold load_to_s3 write_df_to_s3
    rw [hemp]
    rcases hfmt with h | h
    · subst h
      simp only [if_true, Bool.false_eq_true, if_false, reduceIte]
      rcases update_meta_file (readLedgerOutcome st.ledger) st.ledger mul t
        with ⟨led1, _ | _⟩ <;> rfl
    · by_cases h2 : fmt = "csv"
      · subst h2
        simp only [Bool.false_eq_true, if_false, reduceIte]
        rcases update_meta_file (readLedgerOutcome st.ledger) st.ledger mul t
          with ⟨led1, _ | _⟩ <;> rfl
      · subst h
        simp only [Bool.false_eq_true, if_false, reduceIte]
        rcases update_meta_file (readLedgerOutcome st.ledger) st.ledger mul t
          with ⟨led1, _ | _⟩ <;> rfl
  · intro he
    subst he
    have hemp : reportEmpty [] = true := rfl
    unfold load_to_s3 write_df_to_s3 update_meta_file_run
    rw [hemp]
    simp only [if_true]
    rcases update_meta_file (readLedgerOutcome st.ledger) st.ledger mul t
      with ⟨led1, _ | _⟩ <;> exact ⟨rfl, rfl⟩

theorem load_to_s3_ledger_update_semantics_witness :
    load_to_s3 ⟨none, none⟩ [⟨"A", 6, 11, 11, 9, 12, 100, none⟩] "xml" [5] "t" =
      ((⟨none, none⟩ : TrgState), .error .wrongFormat) ∧
    (load_to_s3 ⟨none, none⟩ [⟨"A", 6, 11, 11, 9, 12, 100, none⟩]
        "parquet" [5] "t").1.report = some [⟨"A", 6, 11, 11, 9, 12, 100, none⟩] ∧
    ((load_to_s3 ⟨none, none⟩ [] "csv" [6] "t").1.report =
        (⟨none, none⟩ : TrgState).report ∧
      (load_to_s3 ⟨none, none⟩ [] "csv" [6] "t").1.ledger =
        (update_meta_file_run none [6] "t").1) :=
  ⟨(load_to_s3_ledger_update_semantics ⟨none, none⟩ _ "xml" [5] "t").1
      .wrongFormat rfl,
   (load_to_s3_ledger_update_semantics ⟨none, none⟩ _ "parquet" [5] "t").2.1
      (List.cons_ne_nil _ _) (Or.inr rfl),
   (load_to_s3_ledger_update_semantics ⟨none, none⟩ [] "csv" [6] "t").2.2 rfl⟩

/-! ## Further `dateRange` lemmas, for the idempotence claim -/

theorem dateRange_nil {a b : Int} (h : b < a) : dateRange a b = [] := by
  unfold dateRange
  have h0 : (b - a + 1).toNat = 0 := by omega
  rw [h0]
  rfl

theorem dateRange_cons {a b : Int} (h : a ≤ b) :
    dateRange a b = a :: dateRange (a + 1) b := by
  unfold dateRange
  rcases hn : (b - a + 1).toNat with _ | k
  · omega
  · have hk : (b - (a + 1) + 1).toNat = k := by omega
    rw [hk, List.range_succ_eq_map]
    simp only [List.map_cons, Nat.cast_zero, add_zero, List.map_map]
    refine congrArg (a :: ·) (List.map_congr_left ?_)
    intro x _
    simp only [Function.comp_apply]
    push_cast
    ring

theorem dateRange_filter_ge_aux (b : Int) :
    ∀ n : Nat, ∀ a c : Int, a ≤ c → (c - a).toNat = n →
      (dateRange a b).filter (fun d => decide (c ≤ d)) = dateRange c b := by
  intro n
  induction n with
  | zero =>
      intro a c hac hn
      have : a = c := by omega
      subst this
      rw [List.filter_eq_self.mpr]
      intro d hd
      simp only [decide_eq_true_eq]
      exact (mem_dateRange.mp hd).1
  | succ n ih =>
      intro a c hac hn
      have hlt : a < c := by omega
      by_cases hb : b < a
      · rw [dateRange_nil hb, dateRange_nil (by omega)]
        rfl
      · rw [dateRange_cons (by omega), List.filter_cons]
        have hf : decide (c ≤ a) = false := by
          simp only [decide_eq_false_iff_not]
          omega
        rw [hf]
        simp only [Bool.false_eq_true, if_false]
        exact ih (a + 1) c (by omega) (by omega)

theorem dateRange_filter_ge {a b c : Int} (hac : a ≤ c) :
    (dateRange a b).filter (fun d => decide (c ≤ d)) = dateRange c b :=
  dateRange_filter_ge_aux b (c - a).toNat a c hac rfl

theorem filter_ge_collapse (l : List Int) (m : Int) :
    (l.filter (fun d => decide (m - 1 ≤ d))).filter (fun d => decide (m ≤ d)) =
      l.filter (fun d => decide (m ≤ d)) := by
  rw [List.filter_filter]
  refine List.filter_congr ?_
  intro d _
  by_cases h : m ≤ d
  · have h1 : decide (m - 1 ≤ d) = true := by simp; omega
    have h2 : decide (m ≤ d) = true := by simp; omega
    rw [h1, h2]
    rfl
  · have h2 : decide (m ≤ d) = false := by simp; omega
    rw [h2]
    rfl

/-! ## Idempotence of reconciliation after a ledger update (C8) -/

/-- C8 (amended): with today held fixed, let `(cutoff, dl)` be the
window computed by `return_date_list` and let `update_meta_file` then
append exactly the dates of `dl` that are `≥ cutoff` (the
`meta_update_list` built in `XetraETL.__init__`).  Provided the stored
ledger is well-formed (absent, or carrying the expected two-column
header, as every ledger written by the pipeline does) and the run is
not the degenerate bootstrap with today = first date − 1 — where the
window is the lookback day alone, nothing is appended, and the same
nonempty window recurs — a second `return_date_list` against the
updated ledger returns an empty date list. -/
theorem return_date_list_idempotent_after_update (ledger : Option MetaDF)
    (first_date today : Int) (t : String) (cutoff : Int) (dl : List Int)
    (hwf : ∀ df, ledger = some df →
      df.columns = [META_SOURCE_DATE_COLUMN, META_PROCESS_COL])
    (hedge : ¬(ledger = none ∧ today = first_date - 1))
    (h1 : return_date_list_run ledger first_date today = .ok (cutoff, dl)) :
    ∃ c2 : Int, return_date_list_run
        (update_meta_file_run ledger
          (dl.filter (fun d => decide (cutoff ≤ d))) t).1
        first_date today = .ok (c2, []) := by
  rcases ledger with _ | df
  · -- absent ledger: the first window is the full candidate range
    simp only [return_date_list_run, readLedgerOutcome, return_date_list] at h1
    rw [Except.ok.injEq, Prod.mk.injEq] at h1
    obtain ⟨hc, hd⟩ := h1
    subst hc
    subst hd
    rw [dateRange_filter_ge (by omega : first_date - 1 ≤ first_date)]
    by_cases ht : first_date ≤ today
    · obtain hcons := dateRange_cons ht
      rw [hcons]
      have hupd : (update_meta_file_run none
          (first_date :: dateRange (first_date + 1) today) t).1 =
          some ⟨[META_SOURCE_DATE_COLUMN, META_PROCESS_COL],
            first_date :: dateRange (first_date + 1) today,
            (first_date :: dateRange (first_date + 1) today).map
              (fun _ => t)⟩ := rfl
      rw [hupd]
      refine ⟨sentinelDate, return_date_list_sentinel_aux _ _ _
        (List.cons_ne_nil _ _) (List.mem_cons_self _ _) ?_⟩
      intro d hd
      exact hcons ▸ hd
    · have hnil : dateRange first_date today = [] := dateRange_nil (by omega)
      rw [hnil]
      have hnil2 : dateRange (first_date - 1) today = [] := by
        refine dateRange_nil ?_
        have hne : today ≠ first_date - 1 := fun hh => hedge ⟨rfl, hh⟩
        omega
      refine ⟨first_date, ?_⟩
      have hu : (update_meta_file_run none ([] : List Int) t).1 = none := rfl
      rw [hu]
      show Except.ok (first_date, dateRange (first_date - 1) today) =
        .ok (first_date, [])
      rw [hnil2]
  · -- present ledger
    have hwf' : df.columns = [META_SOURCE_DATE_COLUMN, META_PROCESS_COL] :=
      hwf df rfl
    by_cases hemp : metaEmpty df
    · exfalso
      have hro0 : readLedgerOutcome (some df) = .ok none := by
        unfold readLedgerOutcome
        simp only [hemp, if_true]
      unfold return_date_list_run at h1
      rw [hro0] at h1
      simp only [return_date_list] at h1
      exact Except.noConfusion h1
    · have hne : df.sourceDates ≠ [] := by
        intro hh
        exact hemp (by simp [metaEmpty, hh])
      have hro : readLedgerOutcome (some df) = .ok (some df) :=
        readLedgerOutcome_some hne
      have hcol : META_SOURCE_DATE_COLUMN ∈ df.columns := by
        rw [hwf']
        exact List.mem_cons_self _ _
      unfold return_date_list_run at h1
      rw [hro] at h1
      simp only [return_date_list] at h1
      rw [if_pos hcol, dateRange_drop_one, sub_add_cancel] at h1
      rcases hfe : (dateRange first_date today).filter
          (fun d => decide (d ∉ df.sourceDates)) with _ | ⟨m, ms⟩
      · rw [hfe] at h1
        rw [Except.ok.injEq, Prod.mk.injEq] at h1
        obtain ⟨hc, hd⟩ := h1
        subst hc
        subst hd
        refine ⟨sentinelDate, ?_⟩
        have hu : (update_meta_file_run (some df)
            (List.filter (fun d => decide (sentinelDate ≤ d)) []) t).1 =
            some df := rfl
        rw [hu]
        unfold return_date_list_run
        rw [hro]
        simp only [return_date_list]
        rw [if_pos hcol, dateRange_drop_one, sub_add_cancel, hfe]
      · rw [hfe] at h1
        have hsorted : (m :: ms).Sorted (· < ·) :=
          hfe ▸ (dateRange_sorted _ _).filter _
        have hpy : pyMin m ms = m := pyMin_sorted_cons hsorted
        rw [Except.ok.injEq, Prod.mk.injEq] at h1
        obtain ⟨hc, hd⟩ := h1
        rw [hpy] at hc hd
        have hc2 : m - 1 + 1 = m := by omega
        rw [hc2] at hc
        subst hc
        subst hd
        have hmmem : m ∈ (dateRange first_date today).filter
            (fun d => decide (d ∉ df.sourceDates)) :=
          hfe ▸ List.mem_cons_self m ms
        obtain ⟨hmrange, hmdec⟩ := List.mem_filter.mp hmmem
        have hf1 : first_date ≤ m := (mem_dateRange.mp hmrange).1
        have hmt : m ≤ today := (mem_dateRange.mp hmrange).2
        rw [filter_ge_collapse,
          dateRange_filter_ge (by omega : first_date - 1 ≤ m),
          dateRange_cons hmt]
        have hupd : (update_meta_file_run (some df)
            (m :: dateRange (m + 1) today) t).1 =
            some ⟨df.columns,
              df.sourceDates ++ m :: dateRange (m + 1) today,
              df.procTimes ++ (m :: dateRange (m + 1) today).map
                (fun _ => t)⟩ := by
          unfold update_meta_file_run update_meta_file
          rw [hro]
          simp only [hwf', if_true]
          unfold write_df_to_s3
          have hemp2 : (df.sourceDates ++ m :: dateRange (m + 1) today).isEmpty
              = false := by
            rw [List.isEmpty_eq_false]
            simp
          simp only [metaEmpty, hemp2, Bool.false_eq_true, if_false,
            META_FILE_FORMAT, reduceIte]
        rw [hupd]
        refine ⟨sentinelDate, return_date_list_sentinel_aux _ _ _
          (by simp) (by rw [hwf']; exact List.mem_cons_self _ _) ?_⟩
        intro d hd
        simp only [List.mem_append]
        by_cases hds : d ∈ df.sourceDates
        · exact Or.inl hds
        · refine Or.inr ?_
          have hdm : d ∈ (dateRange first_date today).filter
              (fun d => decide (d ∉ df.sourceDates)) :=
            List.mem_filter.mpr ⟨hd, by simpa using hds⟩
          rw [hfe] at hdm
          have hmd : m ≤ d := by
            rcases List.mem_cons.mp hdm with h | h
            · omega
            · exact le_of_lt (List.rel_of_sorted_cons hsorted d h)
          rw [← dateRange_cons hmt]
          exact mem_dateRange.mpr ⟨hmd, (mem_dateRange.mp hd).2⟩

/-- C8 counterexample: with the ledger absent and today = first date − 1
(the first extraction date is tomorrow), the first window is
`(10, [9])`: the lookback day alone.  No date of the list is `≥` the
cutoff 10, so the ledger update is a no-op and the ledger stays absent;
running `return_date_list` again returns the same nonempty date list
`[9]`, so the claim fails for this ledger state and first date. -/
theorem return_date_list_not_idempotent_at_edge :
    return_date_list_run none 10 9 = .ok (10, [9]) ∧
    (update_meta_file_run none
        (([9] : List Int).filter (fun d => decide ((10 : Int) ≤ d))) "t").1
      = none ∧
    return_date_list_run
        (update_meta_file_run none
          (([9] : List Int).filter (fun d => decide ((10 : Int) ≤ d))) "t").1
        10 9 = .ok (10, [9]) ∧
    ([9] : List Int) ≠ [] :=
  ⟨rfl, rfl, rfl, by decide⟩

theorem return_date_list_idempotent_after_update_witness :
    ∃ c2 : Int, return_date_list_run
        (update_meta_file_run
          (some ⟨[META_SOURCE_DATE_COLUMN, META_PROCESS_COL], [5], ["t"]⟩)
          (([5, 6] : List Int).filter (fun d => decide ((6 : Int) ≤ d))) "t").1
        5 6 = .ok (c2, []) :=
  return_date_list_idempotent_after_update
    (some ⟨[META_SOURCE_DATE_COLUMN, META_PROCESS_COL], [5], ["t"]⟩)
    5 6 "t" 6 [5, 6]
    (fun df h => by cases h; rfl)
    (by simp)
    rfl

/-! ## Opening and closing prices (C5) -/

theorem withChange_isin (c : List CleanRow) (r : Report1Row) :
    (withChange c r).isin = r.isin := by
  unfold withChange
  rcases prevDate c r.isin r.date with _ | d2 <;> rfl

theorem withChange_date (c : List CleanRow) (r : Report1Row) :
    (withChange c r).date = r.date := by
  unfold withChange
  rcases prevDate c r.isin r.date with _ | d2 <;> rfl

theorem withChange_openingPrice (c : List CleanRow) (r : Report1Row) :
    (withChange c r).openingPrice = r.openingPrice := by
  unfold withChange
  rcases prevDate c r.isin r.date with _ | d2 <;> rfl

theorem withChange_closingPrice (c : List CleanRow) (r : Report1Row) :
    (withChange c r).closingPrice = r.closingPrice := by
  unfold withChange
  rcases prevDate c r.isin r.date with _ | d2 <;> rfl

theorem foldl_min_const (c : ℚ) {α : Type} (l : List α) :
    (l.map (fun _ => c)).foldl min c = c := by
  induction l with
  | nil => rfl
  | cons x xs ih => simpa [min_self] using ih

theorem foldMin_map_const {α : Type} {l : List α} (c : ℚ) (h : l ≠ []) :
    foldMin (l.map (fun _ => c)) = c := by
  rcases l with _ | ⟨x, xs⟩
  · exact absurd rfl h
  · show (xs.map (fun _ => c)).foldl min c = c
    exact foldl_min_const c xs

theorem time_unique_in_group {g : List CleanRow}
    (hdist : g.Pairwise (fun a b => a.time ≠ b.time))
    {x y : CleanRow} (hx : x ∈ g) (hy : y ∈ g) (hxy : x.time = y.time) :
    x = y := by
  by_contra hne
  have hsymm : Symmetric (fun a b : CleanRow => a.time ≠ b.time) :=
    fun a b h he => h he.symm
  exact List.Pairwise.forall hsymm hdist hx hy hne hxy

/-- C5: for every `(instrument, date)` group of the cleaned input rows
whose times are pairwise distinct, the emitted `opening_price` equals
the `StartPrice` of the earliest-time row of the group and the emitted
`closing_price` equals the `StartPrice` of the latest-time row of the
group — both derived from the start-price field, not an end-price
field — up to the transform's final 2-decimal rounding. -/
theorem transform_report1_opening_closing (extract_date : Int)
    (dataframe : List SrcRow) (out : Report1Row) (r0 r1 : CleanRow)
    (hout : out ∈ transform_report1 extract_date dataframe)
    (hdist : ((dropnaRows dataframe).filter
        (sameGroup out.isin out.date)).Pairwise (fun a b => a.time ≠ b.time))
    (hr0m : r0 ∈ (dropnaRows dataframe).filter (sameGroup out.isin out.date))
    (hr0min : ∀ r ∈ (dropnaRows dataframe).filter
        (sameGroup out.isin out.date), r0.time ≤ r.time)
    (hr1m : r1 ∈ (dropnaRows dataframe).filter (sameGroup out.isin out.date))
    (hr1max : ∀ r ∈ (dropnaRows dataframe).filter
        (sameGroup out.isin out.date), r.time ≤ r1.time) :
    out.openingPrice = round2 r0.startPrice ∧
    out.closingPrice = round2 r1.startPrice := by
  by_cases hemp : dataframe.isEmpty
  · unfold transform_report1 at hout
    rw [if_pos hemp] at hout
    exact absurd hout (List.not_mem_nil out)
  · unfold transform_report1 at hout
    rw [if_neg hemp] at hout
    simp only [] at hout
    obtain ⟨hmm, _⟩ := List.mem_filter.mp hout
    obtain ⟨w, hw, hwo⟩ := List.mem_map.mp hmm
    obtain ⟨k, hk, hkw⟩ := List.mem_map.mp hw
    subst hkw
    subst hwo
    have hisin : (roundRow (withChange (dropnaRows dataframe)
        (aggRow (dropnaRows dataframe) k))).isin = k.1 := by
      show (withChange (dropnaRows dataframe)
        (aggRow (dropnaRows dataframe) k)).isin = k.1
      rw [withChange_isin]
      rfl
    have hdate : (roundRow (withChange (dropnaRows dataframe)
        (aggRow (dropnaRows dataframe) k))).date = k.2 := by
      show (withChange (dropnaRows dataframe)
        (aggRow (dropnaRows dataframe) k)).date = k.2
      rw [withChange_date]
      rfl
    rw [hisin, hdate] at hdist hr0m hr0min hr1m hr1max
    obtain ⟨rk, hrk, hrkpair⟩ := List.mem_map.mp
      (List.mem_dedup.mp ((List.perm_insertionSort keyRel _).mem_iff.mp hk))
    have hrkg : rk ∈ (dropnaRows dataframe).filter (sameGroup k.1 k.2) := by
      refine List.mem_filter.mpr ⟨hrk, ?_⟩
      unfold sameGroup
      rw [show rk.isin = k.1 from congrArg Prod.fst hrkpair,
          show rk.date = k.2 from congrArg Prod.snd hrkpair]
      simp
    have hgne : (dropnaRows dataframe).filter (sameGroup k.1 k.2) ≠ [] :=
      List.ne_nil_of_mem hrkg
    have hperm : ((sortByTime (dropnaRows dataframe)).filter
        (sameGroup k.1 k.2)).Perm
        ((dropnaRows dataframe).filter (sameGroup k.1 k.2)) :=
      List.Perm.filter _ (List.perm_insertionSort timeRel _)
    have hsfsorted : ((sortByTime (dropnaRows dataframe)).filter
        (sameGroup k.1 k.2)).Pairwise timeRel :=
      (List.sorted_insertionSort timeRel _).filter _
    constructor
    · have hopen : (roundRow (withChange (dropnaRows dataframe)
          (aggRow (dropnaRows dataframe) k))).openingPrice =
          round2 ((aggRow (dropnaRows dataframe) k).openingPrice) := by
        show round2 ((withChange (dropnaRows dataframe)
          (aggRow (dropnaRows dataframe) k)).openingPrice) = _
        rw [withChange_openingPrice]
      rw [hopen]
      have hagg : (aggRow (dropnaRows dataframe) k).openingPrice =
          foldMin (((dropnaRows dataframe).filter (sameGroup k.1 k.2)).map
            (fun _ => firstStartPrice (dropnaRows dataframe) k.1 k.2)) := rfl
      rw [hagg, foldMin_map_const _ hgne]
      refine congrArg round2 ?_
      unfold firstStartPrice
      rcases hsf : (sortByTime (dropnaRows dataframe)).filter
          (sameGroup k.1 k.2) with _ | ⟨h0, rest⟩
      · rw [hsf] at hperm
        exact absurd (List.perm_nil.mp hperm.symm) hgne
      · rw [hsf] at hperm hsfsorted
        show h0.startPrice = r0.startPrice
        have h0g : h0 ∈ (dropnaRows dataframe).filter (sameGroup k.1 k.2) :=
          hperm.mem_iff.mp (List.mem_cons_self _ _)
        have hr0sf : r0 ∈ h0 :: rest := hperm.mem_iff.mpr hr0m
        have h0le : h0.time ≤ r0.time := by
          rcases List.mem_cons.mp hr0sf with h | h
          · rw [h]
          · exact List.rel_of_sorted_cons hsfsorted r0 h
        have hle0 : r0.time ≤ h0.time := hr0min h0 h0g
        rw [time_unique_in_group hdist h0g hr0m (le_antisymm h0le hle0)]
    · have hclose : (roundRow (withChange (dropnaRows dataframe)
          (aggRow (dropnaRows dataframe) k))).closingPrice =
          round2 ((aggRow (dropnaRows dataframe) k).closingPrice) := by
        show round2 ((withChange (dropnaRows dataframe)
          (aggRow (dropnaRows dataframe) k)).closingPrice) = _
        rw [withChange_closingPrice]
      rw [hclose]
      have hagg : (aggRow (dropnaRows dataframe) k).closingPrice =
          foldMin (((dropnaRows dataframe).filter (sameGroup k.1 k.2)).map
            (fun _ => lastStartPrice (dropnaRows dataframe) k.1 k.2)) := rfl
      rw [hagg, foldMin_map_const _ hgne]
      refine congrArg round2 ?_
      unfold lastStartPrice
      rw [List.getLast?_eq_head?_reverse]
      rcases hsf : ((sortByTime (dropnaRows dataframe)).filter
          (sameGroup k.1 k.2)).reverse with _ | ⟨h1, rest1⟩
      · have hnil : (sortByTime (dropnaRows dataframe)).filter
            (sameGroup k.1 k.2) = [] := by
          have h2 := congrArg List.reverse hsf
          simpa using h2
        rw [hnil] at hperm
        exact absurd (List.perm_nil.mp hperm.symm) hgne
      · show h1.startPrice = r1.startPrice
        have hrevsorted : (((sortByTime (dropnaRows dataframe)).filter
            (sameGroup k.1 k.2)).reverse).Pairwise (fun a b => timeRel b a) :=
          List.pairwise_reverse.mpr hsfsorted
        rw [hsf] at hrevsorted
        have h1sf : h1 ∈ (sortByTime (dropnaRows dataframe)).filter
            (sameGroup k.1 k.2) :=
          List.mem_reverse.mp (hsf.symm ▸ List.mem_cons_self h1 rest1)
        have h1g : h1 ∈ (dropnaRows dataframe).filter (sameGroup k.1 k.2) :=
          hperm.mem_iff.mp h1sf
        have hr1rev : r1 ∈ h1 :: rest1 := by
          rw [← hsf]
          exact List.mem_reverse.mpr (hperm.mem_iff.mpr hr1m)
        have h1ge : r1.time ≤ h1.time := by
          rcases List.mem_cons.mp hr1rev with h | h
          · rw [h]
          · exact List.rel_of_sorted_cons hrevsorted r1 h
        have hge1 : h1.time ≤ r1.time := hr1max h1 h1g
        rw [time_unique_in_group hdist h1g hr1m (le_antisymm hge1 h1ge)]

/-- Two rows of one `("A", 5)` group: times 480 and 540 minutes, start
prices 20 and 10 respectively (later time listed first). -/
def sampleSrc2 : List SrcRow :=
  [⟨some "A", some "M", some 5, some 540, some 20, some 21,
    some 19, some 22, some 200⟩,
   ⟨some "A", some "M", some 5, some 480, some 10, some 11,
    some 9, some 12, some 100⟩]

theorem transform_report1_sampleSrc2_eval :
    transform_report1 3 sampleSrc2 = [⟨"A", 5, 10, 20, 9, 22, 300, none⟩] := by
  norm_num [sampleSrc2, transform_report1, dropnaRows, groupKeys, sortByTime,
    aggRow, withChange, prevDate, isinDates, firstStartPrice, lastStartPrice,
    foldMin, foldMax, foldSum, roundRow, round2, roundHalfEven, ratFloor,
    sameGroup, keyRel, timeRel, List.insertionSort, List.orderedInsert,
    List.dedup, List.filter, List.filterMap, List.foldl, List.map]

theorem transform_report1_opening_closing_witness :
    Report1Row.openingPrice ⟨"A", 5, 10, 20, 9, 22, 300, none⟩ =
      round2 (CleanRow.startPrice ⟨"A", "M", 5, 480, 10, 11, 9, 12, 100⟩) ∧
    Report1Row.closingPrice ⟨"A", 5, 10, 20, 9, 22, 300, none⟩ =
      round2 (CleanRow.startPrice ⟨"A", "M", 5, 540, 20, 21, 19, 22, 200⟩) :=
  transform_report1_opening_closing 3 sampleSrc2
    ⟨"A", 5, 10, 20, 9, 22, 300, none⟩
    ⟨"A", "M", 5, 480, 10, 11, 9, 12, 100⟩
    ⟨"A", "M", 5, 540, 20, 21, 19, 22, 200⟩
    (by rw [transform_report1_sampleSrc2_eval]; exact List.mem_singleton.mpr rfl)
    (by decide) (by decide) (by decide) (by decide) (by decide)
